import Mathlib

/-!
Verification of the Microsatellite_Filter repository.

The development shallowly embeds the two Python source files that the claims
concern: `add_msat_name.py` (comparison-index loader, locus name assigner,
table rewriter) and `ssrmmd_filter.py` (row-filtering utility).  Tables are
lists of rows; `csv.DictReader` rows are association lists from column name
to value; Python strings are Lean `String`s; Python `int` is `Int`.
-/

namespace MsatFilter

/-- The whitespace characters stripped by Python `str.strip()` and matched by
the regex class `\s` (ASCII part). -/
def pyIsSpace (c : Char) : Bool :=
  c = ' ' || c = '\t' || c = '\n' || c = '\r' || c = '\u000B' || c = '\u000C'

/-- Strip `pyIsSpace` characters from both ends of a character list. -/
def stripList (l : List Char) : List Char :=
  ((l.dropWhile pyIsSpace).reverse.dropWhile pyIsSpace).reverse

/-- Python `str.strip()` (no arguments): remove surrounding whitespace. -/
def pyStrip (s : String) : String := ⟨stripList s.data⟩

/-- The ASCII lower/upper case letter pairs used by `str.upper()`. -/
def upperPairs : List (Char × Char) :=
  [('a', 'A'), ('b', 'B'), ('c', 'C'), ('d', 'D'), ('e', 'E'), ('f', 'F'),
   ('g', 'G'), ('h', 'H'), ('i', 'I'), ('j', 'J'), ('k', 'K'), ('l', 'L'),
   ('m', 'M'), ('n', 'N'), ('o', 'O'), ('p', 'P'), ('q', 'Q'), ('r', 'R'),
   ('s', 'S'), ('t', 'T'), ('u', 'U'), ('v', 'V'), ('w', 'W'), ('x', 'X'),
   ('y', 'Y'), ('z', 'Z')]

/-- Python `str.upper()` on one character (ASCII letters; the inputs the
pipeline manipulates are ASCII). -/
def pyUpperChar (c : Char) : Char :=
  ((upperPairs.find? (fun p => p.1 == c)).map Prod.snd).getD c

/-- Python `str.lower()` on one character (ASCII letters). -/
def pyLowerChar (c : Char) : Char :=
  ((upperPairs.find? (fun p => p.2 == c)).map Prod.fst).getD c

/-- Python `str.upper()`. -/
def pyUpper (s : String) : String := ⟨s.data.map pyUpperChar⟩

/-- Python `str.lower()`. -/
def pyLower (s : String) : String := ⟨s.data.map pyLowerChar⟩

/-- Decimal digit character for a digit value (values `≥ 9` give `'9'`;
only arguments `< 10` arise). -/
def natDigitChar : Nat → Char
  | 0 => '0' | 1 => '1' | 2 => '2' | 3 => '3' | 4 => '4'
  | 5 => '5' | 6 => '6' | 7 => '7' | 8 => '8' | _ => '9'

/-- Fuel-driven decimal digit expansion (most significant digit first);
`fuel > n` suffices. -/
def natDigitsGo : Nat → Nat → List Char → List Char
  | 0, _, acc => acc
  | fuel + 1, n, acc =>
    if n < 10 then natDigitChar n :: acc
    else natDigitsGo fuel (n / 10) (natDigitChar (n % 10) :: acc)

/-- Decimal digits of a natural number, as Python `str(n)` / f-string
formatting produces them. -/
def natDigits (n : Nat) : List Char := natDigitsGo (n + 1) n []

/-- Python decimal rendering of a natural number. -/
def natRepr (n : Nat) : String := ⟨natDigits n⟩

/-- Python decimal rendering of an integer (f-string `{i}`). -/
def intRepr (i : Int) : String :=
  if i < 0 then "-" ++ natRepr i.natAbs else natRepr i.toNat

/-- Value of a decimal digit list (inverse of `natDigits`). -/
def digitsVal (l : List Char) : Nat :=
  l.foldl (fun a c => a * 10 + (c.toNat - 48)) 0

/-- Association-list lookup, modelling Python `dict` lookup when entries are
prepended on update (the head is the most recent binding). -/
def alookup {α : Type} : List (String × α) → String → Option α
  | [], _ => none
  | (k, v) :: rest, key => if k = key then some v else alookup rest key

theorem alookup_cons {α : Type} (k : String) (v : α) (rest : List (String × α))
    (key : String) :
    alookup ((k, v) :: rest) key = if k = key then some v else alookup rest key := rfl

theorem pyUpperChar_fixed_of_snd : ∀ p ∈ upperPairs, pyUpperChar p.2 = p.2 := by decide

theorem pyUpperChar_idem (c : Char) : pyUpperChar (pyUpperChar c) = pyUpperChar c := by
  cases h : upperPairs.find? (fun p => p.1 == c) with
  | none =>
      have hfix : pyUpperChar c = c := by unfold pyUpperChar; rw [h]; rfl
      rw [hfix]; exact hfix
  | some p =>
      have hc : pyUpperChar c = p.2 := by unfold pyUpperChar; rw [h]; rfl
      rw [hc]
      exact pyUpperChar_fixed_of_snd p (List.mem_of_find?_eq_some h)

theorem pyUpper_idem (s : String) : pyUpper (pyUpper s) = pyUpper s := by
  unfold pyUpper
  simp [List.map_map, Function.comp_def, pyUpperChar_idem]

theorem pyUpper_eq_empty_iff (s : String) : pyUpper s = "" ↔ s = "" := by
  constructor
  · intro h
    cases s with
    | mk l =>
        cases l with
        | nil => rfl
        | cons c cs => simp [pyUpper, String.ext_iff] at h
  · intro h; subst h; rfl

theorem pyUpper_length (s : String) : (pyUpper s).length = s.length := by
  cases s with
  | mk l => simp [pyUpper, String.length]

theorem mem_pyUpper_upperChar (s : String) (c : Char) (hc : c ∈ (pyUpper s).data) :
    pyUpperChar c = c := by
  cases s with
  | mk l =>
      simp only [pyUpper, List.mem_map] at hc
      obtain ⟨a, _, rfl⟩ := hc
      exact pyUpperChar_idem a

theorem natDigitChar_toNat (d : Nat) (hd : d < 10) : (natDigitChar d).toNat = 48 + d := by
  interval_cases d <;> rfl

theorem natDigitChar_ne_dot (d : Nat) : natDigitChar d ≠ '.' := by
  unfold natDigitChar
  split <;> decide

theorem natDigitsGo_append (fuel n : Nat) (acc : List Char) :
    natDigitsGo fuel n acc = natDigitsGo fuel n [] ++ acc := by
  induction fuel generalizing n acc with
  | zero => simp [natDigitsGo]
  | succ fuel ih =>
      by_cases h : n < 10
      · simp [natDigitsGo, h]
      · rw [natDigitsGo, natDigitsGo, if_neg h, if_neg h, ih (n / 10),
          ih (n / 10) [natDigitChar (n % 10)], List.append_assoc]
        rfl

theorem digitsVal_append_singleton (l : List Char) (c : Char) :
    digitsVal (l ++ [c]) = digitsVal l * 10 + (c.toNat - 48) := by
  simp [digitsVal, List.foldl_append]

theorem natDigitsGo_val (fuel n : Nat) (h : n < fuel) :
    digitsVal (natDigitsGo fuel n []) = n := by
  induction fuel generalizing n with
  | zero => omega
  | succ fuel ih =>
      by_cases h10 : n < 10
      · have : (natDigitChar n).toNat = 48 + n := natDigitChar_toNat n h10
        simp [natDigitsGo, h10, digitsVal, this]
      · rw [natDigitsGo, if_neg h10, natDigitsGo_append,
          digitsVal_append_singleton, ih (n / 10) (by omega),
          natDigitChar_toNat (n % 10) (by omega)]
        omega

theorem natDigits_val (n : Nat) : digitsVal (natDigits n) = n :=
  natDigitsGo_val (n + 1) n (by omega)

theorem natDigits_inj {a b : Nat} (h : natDigits a = natDigits b) : a = b := by
  have := congrArg digitsVal h
  rwa [natDigits_val, natDigits_val] at this

theorem mem_natDigitsGo_ne_dot (fuel n : Nat) (acc : List Char)
    (hacc : ∀ c ∈ acc, c ≠ '.') : ∀ c ∈ natDigitsGo fuel n acc, c ≠ '.' := by
  induction fuel generalizing n acc with
  | zero => simpa [natDigitsGo] using hacc
  | succ fuel ih =>
      by_cases h : n < 10
      · rw [natDigitsGo, if_pos h]
        intro c hc
        rcases List.mem_cons.mp hc with rfl | hc
        · exact natDigitChar_ne_dot n
        · exact hacc c hc
      · rw [natDigitsGo, if_neg h]
        refine ih (n / 10) _ ?_
        intro c hc
        rcases List.mem_cons.mp hc with rfl | hc
        · exact natDigitChar_ne_dot (n % 10)
        · exact hacc c hc

theorem mem_natDigits_ne_dot (n : Nat) : ∀ c ∈ natDigits n, c ≠ '.' :=
  mem_natDigitsGo_ne_dot (n + 1) n [] (by simp)

theorem takeWhile_append_cons {p : Char → Bool} (l1 : List Char) (x : Char)
    (l2 : List Char) (h1 : ∀ c ∈ l1, p c = true) (hx : p x = false) :
    (l1 ++ x :: l2).takeWhile p = l1 := by
  induction l1 with
  | nil => simp [List.takeWhile_cons, hx]
  | cons a l ih =>
      have ha : p a = true := h1 a (List.mem_cons_self a l)
      simp only [List.cons_append, List.takeWhile_cons, ha, if_true]
      rw [ih (fun c hc => h1 c (List.mem_cons_of_mem a hc))]

theorem append_dot_digits_inj (b1 b2 d1 d2 : List Char)
    (h1 : ∀ c ∈ d1, c ≠ '.') (h2 : ∀ c ∈ d2, c ≠ '.')
    (h : b1 ++ '.' :: d1 = b2 ++ '.' :: d2) : b1 = b2 ∧ d1 = d2 := by
  have hrev := congrArg List.reverse h
  simp only [List.reverse_append, List.reverse_cons, List.append_assoc,
    List.singleton_append] at hrev
  have htw := congrArg (List.takeWhile (fun c => !(c == '.'))) hrev
  rw [takeWhile_append_cons _ _ _
      (fun c hc => by
        simp only [Bool.not_eq_true', beq_eq_false_iff_ne]
        exact h1 c (List.mem_reverse.mp hc)) (by simp),
    takeWhile_append_cons _ _ _
      (fun c hc => by
        simp only [Bool.not_eq_true', beq_eq_false_iff_ne]
        exact h2 c (List.mem_reverse.mp hc)) (by simp)] at htw
  have hd : d1 = d2 := List.reverse_injective htw
  subst hd
  refine ⟨?_, rfl⟩
  have hlen : b1.length = b2.length := by
    have := congrArg List.length h
    simp only [List.length_append, List.length_cons] at this
    omega
  exact List.append_inj_left h hlen

/-- The canonical-name format `f"{base}.{idx}"` from pass 2 of `main`. -/
def mkName (b : String) (n : Nat) : String := b ++ "." ++ natRepr n

theorem string_data_append (a b : String) : (a ++ b).data = a.data ++ b.data := rfl

theorem mkName_inj {b1 b2 : String} {n1 n2 : Nat} (h : mkName b1 n1 = mkName b2 n2) :
    b1 = b2 ∧ n1 = n2 := by
  have hd := congrArg String.data h
  simp only [mkName, string_data_append, natRepr, List.append_assoc] at hd
  simp only [List.singleton_append] at hd
  have := append_dot_digits_inj b1.data b2.data (natDigits n1) (natDigits n2)
    (mem_natDigits_ne_dot n1) (mem_natDigits_ne_dot n2) hd
  refine ⟨?_, natDigits_inj this.2⟩
  cases b1
  cases b2
  exact congrArg String.mk this.1

/-! ## Python `int()` parsing -/

/-- Parse a run of decimal digits, failing on any non-digit. -/
def parseDigitsAux : List Char → Nat → Option Nat
  | [], acc => some acc
  | c :: cs, acc =>
    if c.isDigit then parseDigitsAux cs (acc * 10 + (c.toNat - 48)) else none

/-- Python `int(s)`: surrounding whitespace allowed, optional sign, at least
one decimal digit; `none` models the `ValueError` caught by the caller. -/
def pyInt (s : String) : Option Int :=
  match stripList s.data with
  | [] => none
  | '-' :: rest =>
    match rest with
    | [] => none
    | _ :: _ => (parseDigitsAux rest 0).map (fun n => -(n : Int))
  | '+' :: rest =>
    match rest with
    | [] => none
    | _ :: _ => (parseDigitsAux rest 0).map (fun n => (n : Int))
  | l => (parseDigitsAux l 0).map (fun n => (n : Int))

/-! ## Comparison-index loader (`load_compare` in `add_msat_name.py`) -/

/-- One value of the `comp` dictionary: the tuple `(motif, rmin, rmax)`. -/
structure CompRec where
  motif : String
  rmin : Int
  rmax : Int
  deriving DecidableEq

/-- `row.get(k)` on a `csv.DictReader` row, modelled as an association list. -/
def getField (row : List (String × String)) (k : String) : Option String :=
  alookup row k

/-- `rmin = rep1 if rep1 <= rep2 else rep2` (line 56). -/
def rminOf (rep1 rep2 : Int) : Int := if rep1 ≤ rep2 then rep1 else rep2

/-- `rmax = rep2 if rep2 >= rep1 else rep1` (line 57). -/
def rmaxOf (rep1 rep2 : Int) : Int := if rep2 ≥ rep1 then rep2 else rep1

/-- The required `.compare` columns checked by `load_compare`. -/
def neededCols : List String :=
  ["number", "fasta1_motif", "fasta2_motif",
   "fasta1_repeat_number", "fasta2_repeat_number"]

/-- The body of the row loop of `load_compare`: skip rows with a blank
`number`, pick the first non-empty upper-cased motif, skip rows whose repeat
counts do not parse, and store `(motif, rmin, rmax)` under `number`
(prepending models `comp[num] = ...`, the head being the latest binding). -/
def processCompRow (comp : List (String × CompRec))
    (row : List (String × String)) : List (String × CompRec) :=
  let num := pyStrip ((getField row "number").getD "")
  if num = "" then comp
  else
    let m1 := pyUpper (pyStrip ((getField row "fasta1_motif").getD ""))
    let m2 := pyUpper (pyStrip ((getField row "fasta2_motif").getD ""))
    let motif := if m1 ≠ "" then m1 else m2
    match pyInt ((getField row "fasta1_repeat_number").getD ""),
        pyInt ((getField row "fasta2_repeat_number").getD "") with
    | some rep1, some rep2 =>
        (num, ⟨motif, rminOf rep1 rep2, rmaxOf rep1 rep2⟩) :: comp
    | _, _ => comp

/-- `load_compare`: abort when a required column is missing from the header
or when no usable row was loaded; otherwise return the index. -/
def loadCompare (fieldnames : List String)
    (rows : List (List (String × String))) : Except String (List (String × CompRec)) :=
  let miss := neededCols.filter (fun c => !(fieldnames.contains c))
  if miss ≠ [] then Except.error "[error] .compare missing columns"
  else
    let comp := rows.foldl processCompRow []
    if comp = [] then Except.error "[error] No rows loaded from .compare"
    else Except.ok comp

/-- `sys.exit` with a message, i.e. a non-zero process exit. -/
def isError {ε α : Type} : Except ε α → Bool
  | Except.error _ => true
  | Except.ok _ => false

/-- Base name `f"{motif}({rmin}-{rmax})"` (line 115). -/
def mkBase (rec : CompRec) : String :=
  rec.motif ++ "(" ++ intRepr rec.rmin ++ "-" ++ intRepr rec.rmax ++ ")"

/-! ## Locus name assigner and table rewriter (`main` in `add_msat_name.py`) -/

/-- `extract_locus_num`: the regex `re.match(r"\s*(\d+)", raw)` — skip leading
whitespace, then take the maximal run of decimal digits (empty when the first
non-blank character is not a digit). -/
def extractLocusNum (raw : String) : String :=
  ⟨(raw.data.dropWhile pyIsSpace).takeWhile (fun c => c.isDigit)⟩

/-- Lines 103-104 / 135-136: `if len(row) < len(header):
row = (row + [""] * len(header))[:len(header)]`. -/
def normalizeRow (header row : List String) : List String :=
  if row.length < header.length then
    (row ++ List.replicate header.length "").take header.length
  else row

/-- The locus key of a primer row: normalize the row, read the `id` field,
strip it, and extract its leading integer (lines 103-106 and 135-138). -/
def keyOfRow (header : List String) (idIdx : Nat) (row : List String) : String :=
  extractLocusNum (pyStrip ((normalizeRow header row).getD idIdx ""))

/-- The state of pass 1 of `main`: `loci_in_order`, `seen_loci`,
`locus_base` and `missing_loci`. -/
structure P1 where
  loci : List String
  seen : List String
  base : List (String × String)
  missing : List String

/-- One iteration of pass 1 (lines 102-118): discover a locus key on first
sight and resolve its base name from the comparison index. -/
def pass1Step (comp : List (String × CompRec)) (header : List String)
    (idIdx : Nat) (st : P1) (row : List String) : P1 :=
  let k := keyOfRow header idIdx row
  if k = "" then st
  else if st.seen.contains k then st
  else
    match alookup comp k with
    | some rec => ⟨st.loci ++ [k], k :: st.seen, (k, mkBase rec) :: st.base, st.missing⟩
    | none => ⟨st.loci ++ [k], k :: st.seen, (k, "NA") :: st.base, k :: st.missing⟩

/-- Pass 1 of `main` over all data rows. -/
def pass1 (comp : List (String × CompRec)) (header : List String)
    (idIdx : Nat) (data : List (List String)) : P1 :=
  data.foldl (pass1Step comp header idIdx) ⟨[], [], [], []⟩

/-- `locus_base.get(locus, "NA")` (line 124). -/
def baseOf (lb : List (String × String)) (l : String) : String :=
  (alookup lb l).getD "NA"

/-- One iteration of pass 2 (lines 123-130): `"NA"` loci are named `"NA"`
without touching `base_counts`; otherwise the counter for the base name is
incremented and the suffixed name recorded. -/
def pass2Step (lb : List (String × String))
    (st : List (String × Nat) × List (String × String)) (locus : String) :
    List (String × Nat) × List (String × String) :=
  let base := baseOf lb locus
  if base = "NA" then (st.1, (locus, "NA") :: st.2)
  else
    let idx := (alookup st.1 base).getD 0 + 1
    ((base, idx) :: st.1, (locus, mkName base idx) :: st.2)

/-- Pass 2 of `main` from a given `base_counts` / `locus_final` state. -/
def pass2Go (lb : List (String × String))
    (st : List (String × Nat) × List (String × String)) (loci : List String) :
    List (String × Nat) × List (String × String) :=
  loci.foldl (pass2Step lb) st

/-- Pass 2 of `main`: the final `locus_final` mapping. -/
def pass2 (loci : List String) (lb : List (String × String)) :
    List (String × String) :=
  (pass2Go lb ([], []) loci).2

/-- Line 94: `new_header = header[:id_idx+1] + ["microsatellite_name"] +
header[id_idx+1:]`. -/
def newHeader (header : List String) (idIdx : Nat) : List String :=
  header.take (idIdx + 1) ++ ["microsatellite_name"] ++ header.drop (idIdx + 1)

/-- Pass 3 of `main` on one row (lines 134-141): normalize, re-derive the
locus key, look up the canonical name (default `"NA"`), insert it after the
`id` column. -/
def pass3Row (header : List String) (idIdx : Nat)
    (locusFinal : List (String × String)) (row : List String) : List String :=
  let r := normalizeRow header row
  let msName := (alookup locusFinal (keyOfRow header idIdx row)).getD "NA"
  r.take (idIdx + 1) ++ [msName] ++ r.drop (idIdx + 1)

/-- `out_rows`: the new header followed by the rewritten data rows. -/
def outputRows (comp : List (String × CompRec)) (header : List String)
    (idIdx : Nat) (data : List (List String)) : List (List String) :=
  let st := pass1 comp header idIdx data
  newHeader header idIdx :: data.map (pass3Row header idIdx (pass2 st.loci st.base))

/-- `main` after `load_compare`, on the primer table rows (lines 77-141):
fail on an empty table, on a missing `id` column, or on a missing
`forward_primer` column; otherwise produce the output table. -/
def addMsatMain (comp : List (String × CompRec)) (rows : List (List String)) :
    Except String (List (List String)) :=
  match rows with
  | [] => Except.error "[error] Primer file appears empty"
  | header :: data =>
    if "id" ∈ header then
      if "forward_primer" ∈ header then
        Except.ok (outputRows comp header (header.indexOf "id") data)
      else Except.error "[error] Primer table missing forward_primer column"
    else Except.error "[error] Primer table needs an id column"

/-! ## Row-filtering utility (`ssrmmd_filter.py`) -/

/-- The CLI-configurable thresholds of `ssrmmd_filter.py` (defaults:
`--allowed-motif-lengths 2,3,4`, `--min-repeats 5`, AT-only motifs removed). -/
structure FilterArgs where
  allowedLengths : List Nat
  minRepeats : Int
  keepAtOnly : Bool

/-- The argparse defaults of `ssrmmd_filter.py`. -/
def defaultFilterArgs : FilterArgs := ⟨[2, 3, 4], 5, false⟩

/-- `is_valid_dna`: `set(motif.upper()).issubset({"A","C","G","T"})`. -/
def isValidDna (m : String) : Bool :=
  (pyUpper m).data.all (fun c => c = 'A' || c = 'C' || c = 'G' || c = 'T')

/-- `is_at_only`: `set(motif.upper()).issubset({"A","T"})`. -/
def isAtOnly (m : String) : Bool :=
  (pyUpper m).data.all (fun c => c = 'A' || c = 'T')

/-- The row-keeping condition of the loop of `main` in `ssrmmd_filter.py`
(lines 118-153), as the code performs it. -/
def keepRow (args : FilterArgs) (row : List (String × String)) : Bool :=
  let poly := pyLower (pyStrip ((getField row "polymorphism").getD ""))
  if poly ≠ "yes" then false
  else
    let m1 := pyUpper (pyStrip ((getField row "fasta1_motif").getD ""))
    let m2 := pyUpper (pyStrip ((getField row "fasta2_motif").getD ""))
    if m1 = "" || m2 = "" then false
    else if m1 ≠ m2 then false
    else if !(isValidDna m1) then false
    else if !(args.allowedLengths.contains m1.length) then false
    else
      match pyInt ((getField row "fasta1_repeat_number").getD ""),
          pyInt ((getField row "fasta2_repeat_number").getD "") with
      | some r1, some r2 =>
        if r1 < args.minRepeats || r2 < args.minRepeats then false
        else if !args.keepAtOnly && isAtOnly m1 then false
        else true
      | _, _ => false

/-! ## Helper lemmas about the passes of `main` -/

theorem pass2Step_snd (lb : List (String × String))
    (st : List (String × Nat) × List (String × String)) (locus : String) :
    ∃ v, (pass2Step lb st locus).2 = (locus, v) :: st.2 := by
  simp only [pass2Step]
  split
  · exact ⟨"NA", rfl⟩
  · exact ⟨_, rfl⟩

theorem pass2Go_cons (lb : List (String × String))
    (st : List (String × Nat) × List (String × String)) (x : String)
    (rest : List String) :
    pass2Go lb st (x :: rest) = pass2Go lb (pass2Step lb st x) rest := rfl

theorem pass2Go_lookup_of_not_mem (lb : List (String × String)) (loci : List String) :
    ∀ st k, k ∉ loci → alookup (pass2Go lb st loci).2 k = alookup st.2 k := by
  induction loci with
  | nil => intro st k _; rfl
  | cons x rest ih =>
      intro st k hk
      have hkx : k ≠ x := fun h => hk (h ▸ List.mem_cons_self x rest)
      have hrest : k ∉ rest := fun h => hk (List.mem_cons_of_mem x h)
      rw [pass2Go_cons, ih _ k hrest]
      obtain ⟨v, hv⟩ := pass2Step_snd lb st x
      rw [hv, alookup_cons, if_neg (fun h => hkx h.symm)]

theorem pass2Step_of_base (lb : List (String × String))
    (st : List (String × Nat) × List (String × String)) (x b : String)
    (hbx : baseOf lb x = b) (hb : b ≠ "NA") :
    pass2Step lb st x =
      ((b, (alookup st.1 b).getD 0 + 1) :: st.1,
       (x, mkName b ((alookup st.1 b).getD 0 + 1)) :: st.2) := by
  simp only [pass2Step, hbx]
  rw [if_neg hb]

theorem pass2Step_of_na (lb : List (String × String))
    (st : List (String × Nat) × List (String × String)) (x : String)
    (hbx : baseOf lb x = "NA") :
    pass2Step lb st x = (st.1, (x, "NA") :: st.2) := by
  simp [pass2Step, hbx]

theorem pass2Step_counts_at (lb : List (String × String))
    (st : List (String × Nat) × List (String × String)) (x b : String)
    (hbx : baseOf lb x ≠ b) :
    alookup (pass2Step lb st x).1 b = alookup st.1 b := by
  by_cases hna : baseOf lb x = "NA"
  · rw [pass2Step_of_na lb st x hna]
  · rw [pass2Step_of_base lb st x (baseOf lb x) rfl hna, alookup_cons, if_neg hbx]

theorem pass2Go_spec (lb : List (String × String)) (loci : List String)
    (hnd : loci.Nodup) (st : List (String × Nat) × List (String × String))
    (b : String) (hb : b ≠ "NA") (i : Nat)
    (hi : i < (loci.filter (fun l => baseOf lb l == b)).length) :
    alookup (pass2Go lb st loci).2
        ((loci.filter (fun l => baseOf lb l == b)).getD i "")
      = some (mkName b ((alookup st.1 b).getD 0 + i + 1)) := by
  induction loci generalizing st i with
  | nil => simp at hi
  | cons x rest ih =>
      have hx : x ∉ rest := (List.nodup_cons.mp hnd).1
      have hnd' : rest.Nodup := (List.nodup_cons.mp hnd).2
      by_cases hbx : baseOf lb x = b
      · have hpx : (fun l => baseOf lb l == b) x = true := by
          simp [hbx]
        rw [pass2Go_cons, pass2Step_of_base lb st x b hbx hb]
        have hfil : (x :: rest).filter (fun l => baseOf lb l == b)
            = x :: rest.filter (fun l => baseOf lb l == b) :=
          List.filter_cons_of_pos hpx
        rw [hfil] at hi ⊢
        cases i with
        | zero =>
            rw [List.getD_cons_zero,
              pass2Go_lookup_of_not_mem lb rest _ x hx, alookup_cons, if_pos rfl]
        | succ j =>
            have hj : j < (rest.filter (fun l => baseOf lb l == b)).length := by
              simpa using hi
            rw [List.getD_cons_succ, ih hnd' _ j hj, alookup_cons, if_pos rfl]
            simp only [Option.getD_some]
            congr 2
            omega
      · have hpx : ¬((baseOf lb x == b) = true) := by
          simp [hbx]
        have hfil : (x :: rest).filter (fun l => baseOf lb l == b)
            = rest.filter (fun l => baseOf lb l == b) :=
          List.filter_cons_of_neg hpx
        rw [hfil] at hi ⊢
        rw [pass2Go_cons, ih hnd' _ i hi,
          pass2Step_counts_at lb st x b hbx]

theorem pass2Go_lookup_na (lb : List (String × String)) (loci : List String)
    (hnd : loci.Nodup) (st : List (String × Nat) × List (String × String))
    (l : String) (hl : l ∈ loci) (hna : baseOf lb l = "NA") :
    alookup (pass2Go lb st loci).2 l = some "NA" := by
  induction loci generalizing st with
  | nil => simp at hl
  | cons x rest ih =>
      have hx : x ∉ rest := (List.nodup_cons.mp hnd).1
      have hnd' : rest.Nodup := (List.nodup_cons.mp hnd).2
      rcases List.mem_cons.mp hl with rfl | hl'
      · rw [pass2Go_cons, pass2Step_of_na lb st l hna,
          pass2Go_lookup_of_not_mem lb rest _ l hx, alookup_cons, if_pos rfl]
      · exact ih hnd' _ hl'

theorem pass2_lookup_some_mem (lb : List (String × String)) (loci : List String)
    (k : String) (v : String) (h : alookup (pass2 loci lb) k = some v) : k ∈ loci := by
  by_contra hk
  rw [pass2, pass2Go_lookup_of_not_mem lb loci _ k hk] at h
  simp [alookup] at h

/-- The base name pass 1 resolves for a locus key (lines 113-117). -/
def baseAssign (comp : List (String × CompRec)) (k : String) : String :=
  match alookup comp k with
  | some rec => mkBase rec
  | none => "NA"

/-- The pass-1 state invariant: the discovered loci are distinct, agree with
the seen-set, exclude the empty key, and `locus_base` records exactly the
base name resolved from the comparison index. -/
def P1Inv (comp : List (String × CompRec)) (st : P1) : Prop :=
  st.loci.Nodup ∧ (∀ k, k ∈ st.loci ↔ k ∈ st.seen) ∧ "" ∉ st.loci ∧
  (∀ k, k ∈ st.loci → alookup st.base k = some (baseAssign comp k))

theorem pass1Step_new (comp : List (String × CompRec)) (header : List String)
    (idIdx : Nat) (st : P1) (row : List String)
    (h1 : keyOfRow header idIdx row ≠ "")
    (h2 : ¬ st.seen.contains (keyOfRow header idIdx row) = true) :
    pass1Step comp header idIdx st row =
      ⟨st.loci ++ [keyOfRow header idIdx row], keyOfRow header idIdx row :: st.seen,
       (keyOfRow header idIdx row, baseAssign comp (keyOfRow header idIdx row)) :: st.base,
       match alookup comp (keyOfRow header idIdx row) with
       | some _ => st.missing
       | none => keyOfRow header idIdx row :: st.missing⟩ := by
  simp only [pass1Step, if_neg h1, h2, if_false, baseAssign]
  cases alookup comp (keyOfRow header idIdx row) <;> rfl

theorem pass1Step_old (comp : List (String × CompRec)) (header : List String)
    (idIdx : Nat) (st : P1) (row : List String)
    (h : keyOfRow header idIdx row = "" ∨
      st.seen.contains (keyOfRow header idIdx row) = true) :
    pass1Step comp header idIdx st row = st := by
  rcases h with h | h
  · simp only [pass1Step, if_pos h]
  · by_cases h1 : keyOfRow header idIdx row = ""
    · simp only [pass1Step, if_pos h1]
    · simp only [pass1Step, if_neg h1, h, if_true]

theorem pass1Step_inv (comp : List (String × CompRec)) (header : List String)
    (idIdx : Nat) (st : P1) (row : List String) (h : P1Inv comp st) :
    P1Inv comp (pass1Step comp header idIdx st row) := by
  by_cases h1 : keyOfRow header idIdx row = ""
  · rw [pass1Step_old comp header idIdx st row (Or.inl h1)]; exact h
  · by_cases h2 : st.seen.contains (keyOfRow header idIdx row) = true
    · rw [pass1Step_old comp header idIdx st row (Or.inr h2)]; exact h
    · rw [pass1Step_new comp header idIdx st row h1 h2]
      obtain ⟨hnd, hseen, hne, hbase⟩ := h
      have hknotseen : keyOfRow header idIdx row ∉ st.seen := by
        intro hmem
        exact h2 (List.elem_eq_true_of_mem hmem)
      have hknotloci : keyOfRow header idIdx row ∉ st.loci := fun hm =>
        hknotseen ((hseen _).mp hm)
      have hmemiff : ∀ k' : String,
          k' ∈ st.loci ++ [keyOfRow header idIdx row] ↔
            (k' ∈ st.loci ∨ k' = keyOfRow header idIdx row) := by
        intro k'; simp
      refine ⟨?_, ?_, ?_, ?_⟩
      · simp only [List.nodup_append, List.nodup_cons, List.nodup_nil,
          List.disjoint_singleton]
        exact ⟨hnd, ⟨by simp, by simp⟩, hknotloci⟩
      · intro k
        rw [hmemiff k, List.mem_cons, hseen k]
        tauto
      · intro hk
        rcases (hmemiff "").mp hk with hk' | hk'
        · exact hne hk'
        · exact h1 hk'.symm
      · intro k hk
        rcases (hmemiff k).mp hk with hk' | rfl
        · have hkne : keyOfRow header idIdx row ≠ k := fun he => hknotloci (he ▸ hk')
          rw [alookup_cons, if_neg hkne]
          exact hbase k hk'
        · rw [alookup_cons, if_pos rfl]

theorem pass1_foldl_inv (comp : List (String × CompRec)) (header : List String)
    (idIdx : Nat) (data : List (List String)) :
    ∀ st, P1Inv comp st →
      P1Inv comp (data.foldl (pass1Step comp header idIdx) st) := by
  induction data with
  | nil => intro st h; exact h
  | cons row rest ih =>
      intro st h
      exact ih _ (pass1Step_inv comp header idIdx st row h)

theorem pass1_inv (comp : List (String × CompRec)) (header : List String)
    (idIdx : Nat) (data : List (List String)) :
    P1Inv comp (pass1 comp header idIdx data) := by
  refine pass1_foldl_inv comp header idIdx data _ ?_
  refine ⟨List.nodup_nil, fun k => by simp, by simp, fun k hk => by simp at hk⟩

theorem pass1Step_seen_mono (comp : List (String × CompRec)) (header : List String)
    (idIdx : Nat) (st : P1) (row : List String) :
    st.seen ⊆ (pass1Step comp header idIdx st row).seen := by
  by_cases h1 : keyOfRow header idIdx row = ""
  · rw [pass1Step_old comp header idIdx st row (Or.inl h1)]
    exact fun a ha => ha
  · by_cases h2 : st.seen.contains (keyOfRow header idIdx row) = true
    · rw [pass1Step_old comp header idIdx st row (Or.inr h2)]
      exact fun a ha => ha
    · rw [pass1Step_new comp header idIdx st row h1 h2]
      exact fun a ha => List.mem_cons_of_mem _ ha

theorem pass1_foldl_seen_mono (comp : List (String × CompRec)) (header : List String)
    (idIdx : Nat) (data : List (List String)) :
    ∀ st, st.seen ⊆ (data.foldl (pass1Step comp header idIdx) st).seen := by
  induction data with
  | nil => intro st; exact fun a ha => ha
  | cons row rest ih =>
      intro st
      exact (pass1Step_seen_mono comp header idIdx st row).trans (ih _)

theorem pass1Step_key_mem_seen (comp : List (String × CompRec)) (header : List String)
    (idIdx : Nat) (st : P1) (row : List String)
    (h1 : keyOfRow header idIdx row ≠ "") :
    keyOfRow header idIdx row ∈ (pass1Step comp header idIdx st row).seen := by
  by_cases h2 : st.seen.contains (keyOfRow header idIdx row) = true
  · rw [pass1Step_old comp header idIdx st row (Or.inr h2)]
    exact List.mem_of_elem_eq_true h2
  · rw [pass1Step_new comp header idIdx st row h1 h2]
    exact List.mem_cons_self _ _

theorem pass1_key_mem_seen (comp : List (String × CompRec)) (header : List String)
    (idIdx : Nat) (data : List (List String)) :
    ∀ st row, row ∈ data → keyOfRow header idIdx row ≠ "" →
      keyOfRow header idIdx row ∈ (data.foldl (pass1Step comp header idIdx) st).seen := by
  induction data with
  | nil => intro st row hrow; simp at hrow
  | cons r rest ih =>
      intro st row hrow h1
      rcases List.mem_cons.mp hrow with rfl | hrow'
      · exact pass1_foldl_seen_mono comp header idIdx rest _
          (pass1Step_key_mem_seen comp header idIdx st row h1)
      · exact ih _ row hrow' h1

theorem pass1_key_mem_loci (comp : List (String × CompRec)) (header : List String)
    (idIdx : Nat) (data : List (List String)) (row : List String)
    (hrow : row ∈ data) (h1 : keyOfRow header idIdx row ≠ "") :
    keyOfRow header idIdx row ∈ (pass1 comp header idIdx data).loci := by
  have hinv := pass1_inv comp header idIdx data
  refine (hinv.2.1 _).mpr ?_
  refine pass1_key_mem_seen comp header idIdx data _ row hrow h1

/-! ## Helper lemmas about the table rewriter -/

theorem normalizeRow_length_ge (header row : List String) :
    header.length ≤ (normalizeRow header row).length := by
  unfold normalizeRow
  split
  · rw [List.length_take, List.length_append, List.length_replicate]
    omega
  · omega

theorem normalizeRow_of_ge (header row : List String)
    (h : header.length ≤ row.length) : normalizeRow header row = row := by
  unfold normalizeRow
  rw [if_neg (by omega)]

theorem normalizeRow_of_lt (header row : List String)
    (h : row.length < header.length) :
    normalizeRow header row = row ++ List.replicate (header.length - row.length) "" := by
  unfold normalizeRow
  rw [if_pos h, List.take_append_eq_append_take,
    List.take_of_length_le (by omega), List.take_replicate]
  congr 2
  omega

theorem getD_append_cons {α : Type} (l1 : List α) (x : α) (l2 : List α) (d : α) :
    (l1 ++ x :: l2).getD l1.length d = x := by
  induction l1 with
  | nil => rfl
  | cons a l ih => simpa using ih

theorem pass3Row_length (header : List String) (idIdx : Nat)
    (locusFinal : List (String × String)) (row : List String)
    (hidx : idIdx < header.length) :
    (pass3Row header idIdx locusFinal row).length
      = (normalizeRow header row).length + 1 := by
  have hlen : idIdx + 1 ≤ (normalizeRow header row).length :=
    le_trans hidx (normalizeRow_length_ge header row)
  simp only [pass3Row, List.length_append, List.length_take, List.length_drop,
    List.length_cons, List.length_nil]
  omega

theorem getD_take_append_cons {α : Type} (l : List α) (n : Nat) (h : n ≤ l.length)
    (x d : α) : (l.take n ++ x :: l.drop n).getD n d = x := by
  have htake : (l.take n).length = n := by
    rw [List.length_take]
    omega
  rw [List.getD_eq_getElem?_getD, List.getElem?_append_right (le_of_eq htake), htake]
  simp

theorem pass3Row_field (header : List String) (idIdx : Nat)
    (locusFinal : List (String × String)) (row : List String)
    (hidx : idIdx < header.length) :
    (pass3Row header idIdx locusFinal row).getD (idIdx + 1) ""
      = (alookup locusFinal (keyOfRow header idIdx row)).getD "NA" := by
  have hlen : idIdx + 1 ≤ (normalizeRow header row).length :=
    le_trans hidx (normalizeRow_length_ge header row)
  simp only [pass3Row, List.append_assoc, List.singleton_append]
  exact getD_take_append_cons _ _ hlen _ _

theorem map_getD_of_lt {α β : Type} (f : α → β) (l : List α) (i : Nat)
    (h : i < l.length) (d : α) (d' : β) :
    (l.map f).getD i d' = f (l.getD i d) := by
  induction l generalizing i with
  | nil => simp at h
  | cons a t ih =>
      cases i with
      | zero => rfl
      | succ j =>
          rw [List.map_cons, List.getD_cons_succ, List.getD_cons_succ]
          exact ih j (by simpa using h)

theorem addMsatMain_cons (comp : List (String × CompRec)) (header : List String)
    (data : List (List String)) :
    addMsatMain comp (header :: data) =
      if "id" ∈ header then
        if "forward_primer" ∈ header then
          Except.ok (outputRows comp header (header.indexOf "id") data)
        else Except.error "[error] Primer table missing forward_primer column"
      else Except.error "[error] Primer table needs an id column" := rfl

theorem addMsatMain_ok {comp : List (String × CompRec)} {header : List String}
    {data out : List (List String)}
    (h : addMsatMain comp (header :: data) = Except.ok out) :
    "id" ∈ header ∧ "forward_primer" ∈ header ∧
      out = outputRows comp header (header.indexOf "id") data := by
  rw [addMsatMain_cons] at h
  split at h
  · split at h
    · injection h with h3
      next h1 h2 => exact ⟨h1, h2, h3.symm⟩
    · exact absurd h (by simp)
  · exact absurd h (by simp)

theorem outputRows_getD (comp : List (String × CompRec)) (header : List String)
    (idIdx : Nat) (data : List (List String)) (i : Nat) (hi : i < data.length) :
    (outputRows comp header idIdx data).getD (i + 1) []
      = pass3Row header idIdx
          (pass2 (pass1 comp header idIdx data).loci (pass1 comp header idIdx data).base)
          (data.getD i []) := by
  unfold outputRows
  rw [List.getD_cons_succ, map_getD_of_lt _ data i hi [] []]

theorem outputRows_field (comp : List (String × CompRec)) (header : List String)
    (idIdx : Nat) (data : List (List String)) (i : Nat) (hi : i < data.length)
    (hidx : idIdx < header.length) :
    ((outputRows comp header idIdx data).getD (i + 1) []).getD (idIdx + 1) ""
      = (alookup
          (pass2 (pass1 comp header idIdx data).loci (pass1 comp header idIdx data).base)
          (keyOfRow header idIdx (data.getD i []))).getD "NA" := by
  rw [outputRows_getD comp header idIdx data i hi, pass3Row_field _ _ _ _ hidx]

theorem indexOf_id_lt (header : List String) (h : "id" ∈ header) :
    header.indexOf "id" < header.length :=
  List.indexOf_lt_length.mpr h

theorem getD_mem {α : Type} (l : List α) (i : Nat) (d : α) (h : i < l.length) :
    l.getD i d ∈ l := by
  induction l generalizing i with
  | nil => simp at h
  | cons a t ih =>
      cases i with
      | zero => exact List.mem_cons_self a t
      | succ j => exact List.mem_cons_of_mem a (ih j (by simpa using h))

/-! ## The claims -/

/-- C1: for every primer table and comparison table, any two primer rows whose
ids yield the same extracted locus key receive the identical inserted
`microsatellite_name` value in the output table. -/
theorem same_locus_same_name (comp : List (String × CompRec)) (header : List String)
    (data out : List (List String))
    (h : addMsatMain comp (header :: data) = Except.ok out)
    (i j : Nat) (hi : i < data.length) (hj : j < data.length)
    (hkey : keyOfRow header (header.indexOf "id") (data.getD i [])
          = keyOfRow header (header.indexOf "id") (data.getD j [])) :
    (out.getD (i + 1) []).getD (header.indexOf "id" + 1) ""
      = (out.getD (j + 1) []).getD (header.indexOf "id" + 1) "" := by
  obtain ⟨hid, -, hout⟩ := addMsatMain_ok h
  subst hout
  rw [outputRows_field comp header _ data i hi (indexOf_id_lt header hid),
    outputRows_field comp header _ data j hj (indexOf_id_lt header hid), hkey]

/-- C1 witness: two rows of locus `66` receive the same name. -/
theorem same_locus_same_name_witness :
    (([["id", "microsatellite_name", "forward_primer"],
       ["66.1", "NA", "A"], ["66.2", "NA", "B"]] : List (List String)).getD 1 []).getD 1 ""
      = (([["id", "microsatellite_name", "forward_primer"],
       ["66.1", "NA", "A"], ["66.2", "NA", "B"]] : List (List String)).getD 2 []).getD 1 "" :=
  same_locus_same_name [("9", ⟨"AC", 4, 7⟩)] ["id", "forward_primer"]
    [["66.1", "A"], ["66.2", "B"]]
    [["id", "microsatellite_name", "forward_primer"],
     ["66.1", "NA", "A"], ["66.2", "NA", "B"]]
    rfl 0 1 (by decide) (by decide) (by decide)

/-- C3: a primer row whose locus key has no comparison-index match, or whose id
has no parseable leading integer, receives exactly the name `"NA"` in the
output; and a locus whose base name is the `"NA"` sentinel never changes the
`base_counts` mapping in pass 2. -/
theorem na_isolation (comp : List (String × CompRec)) (header : List String)
    (data out : List (List String))
    (h : addMsatMain comp (header :: data) = Except.ok out)
    (i : Nat) (hi : i < data.length)
    (hbad : keyOfRow header (header.indexOf "id") (data.getD i []) = ""
      ∨ alookup comp (keyOfRow header (header.indexOf "id") (data.getD i [])) = none) :
    (out.getD (i + 1) []).getD (header.indexOf "id" + 1) "" = "NA"
    ∧ ∀ (lb : List (String × String)) (counts : List (String × Nat))
        (fin : List (String × String)) (l : String),
        baseOf lb l = "NA" → (pass2Step lb (counts, fin) l).1 = counts := by
  constructor
  · obtain ⟨hid, -, hout⟩ := addMsatMain_ok h
    subst hout
    rw [outputRows_field comp header _ data i hi (indexOf_id_lt header hid)]
    have hinv := pass1_inv comp header (header.indexOf "id") data
    by_cases hk0 : keyOfRow header (header.indexOf "id") (data.getD i []) = ""
    · rw [hk0]
      cases halo : alookup
          (pass2 (pass1 comp header (header.indexOf "id") data).loci
            (pass1 comp header (header.indexOf "id") data).base) "" with
      | none => rfl
      | some v =>
          exact absurd (pass2_lookup_some_mem _ _ _ _ halo) hinv.2.2.1
    · have hcomp : alookup comp (keyOfRow header (header.indexOf "id") (data.getD i []))
          = none := by
        rcases hbad with hbad | hbad
        · exact absurd hbad hk0
        · exact hbad
      have hmem : keyOfRow header (header.indexOf "id") (data.getD i [])
          ∈ (pass1 comp header (header.indexOf "id") data).loci :=
        pass1_key_mem_loci comp header _ data _ (getD_mem data i [] hi) hk0
      have hbaseNA : baseOf (pass1 comp header (header.indexOf "id") data).base
          (keyOfRow header (header.indexOf "id") (data.getD i [])) = "NA" := by
        rw [baseOf, hinv.2.2.2 _ hmem, Option.getD_some, baseAssign, hcomp]
      rw [pass2, pass2Go_lookup_na _ _ hinv.1 _ _ hmem hbaseNA, Option.getD_some]
  · intro lb counts fin l hna
    rw [pass2Step_of_na lb (counts, fin) l hna]

/-- C3 witness: an unmatched locus (`67`) and an unparseable id (`x1`) both
yield `"NA"`, and an `"NA"` locus leaves `base_counts` untouched. -/
theorem na_isolation_witness :
    ((([["id", "microsatellite_name", "forward_primer"],
        ["67.1", "NA", "A"], ["x1", "NA", "B"]] : List (List String)).getD 1 []).getD 1 ""
      = "NA")
    ∧ (pass2Step [] ([("b", 3)], []) "q").1 = [("b", 3)] :=
  ⟨(na_isolation [("9", ⟨"AC", 4, 7⟩)] ["id", "forward_primer"]
      [["67.1", "A"], ["x1", "B"]]
      [["id", "microsatellite_name", "forward_primer"],
       ["67.1", "NA", "A"], ["x1", "NA", "B"]]
      rfl 0 (by decide) (Or.inr (by decide))).1,
   (na_isolation [("9", ⟨"AC", 4, 7⟩)] ["id", "forward_primer"]
      [["67.1", "A"], ["x1", "B"]]
      [["id", "microsatellite_name", "forward_primer"],
       ["67.1", "NA", "A"], ["x1", "NA", "B"]]
      rfl 0 (by decide) (Or.inr (by decide))).2
      [] [("b", 3)] [] "q" (by decide)⟩

/-- C4 counterexample: on a data row shorter than the header the output row
has two more fields than the input row, not exactly one more, because the
row is first right-padded to the header length. -/
theorem column_insertion_counterexample :
    addMsatMain [("9", ⟨"AC", 4, 7⟩)] [["id", "forward_primer"], ["7"]]
      = Except.ok [["id", "microsatellite_name", "forward_primer"], ["7", "NA", ""]]
    ∧ ¬ ((["7", "NA", ""] : List String).length = (["7"] : List String).length + 1) := by
  constructor
  · rfl
  · decide

/-- C4 amended: the output header equals the input header with
`microsatellite_name` inserted at position `index_of "id" + 1`; the row count
is preserved; and every output data row equals the corresponding input row
right-padded to the header length (the row itself when it is at least that
long) with a single value inserted at that same position, all other fields
unchanged — so it has exactly one more field than the padded input row. -/
theorem column_insertion_amended (comp : List (String × CompRec))
    (header : List String) (data out : List (List String))
    (h : addMsatMain comp (header :: data) = Except.ok out) :
    out.getD 0 [] = header.take (header.indexOf "id" + 1) ++ ["microsatellite_name"]
        ++ header.drop (header.indexOf "id" + 1)
    ∧ out.length = data.length + 1
    ∧ ∀ i, i < data.length →
        ∃ v, out.getD (i + 1) []
            = (normalizeRow header (data.getD i [])).take (header.indexOf "id" + 1)
              ++ [v] ++ (normalizeRow header (data.getD i [])).drop (header.indexOf "id" + 1)
          ∧ (out.getD (i + 1) []).length
              = (normalizeRow header (data.getD i [])).length + 1 := by
  obtain ⟨hid, -, hout⟩ := addMsatMain_ok h
  subst hout
  refine ⟨rfl, ?_, ?_⟩
  · simp [outputRows]
  · intro i hi
    rw [outputRows_getD comp header _ data i hi]
    exact ⟨_, rfl, pass3Row_length _ _ _ _ (indexOf_id_lt header hid)⟩

/-- C4 amended witness: a well-formed row and a short row, checked concretely. -/
theorem column_insertion_amended_witness :
    (([["id", "microsatellite_name", "forward_primer"],
       ["7", "NA", ""]] : List (List String)).getD 0 []
      = (["id", "forward_primer"] : List String).take 1 ++ ["microsatellite_name"]
        ++ (["id", "forward_primer"] : List String).drop 1)
    ∧ ([["id", "microsatellite_name", "forward_primer"],
        ["7", "NA", ""]] : List (List String)).length = 1 + 1 := by
  have h := column_insertion_amended [("9", ⟨"AC", 4, 7⟩)] ["id", "forward_primer"]
    [["7"]] [["id", "microsatellite_name", "forward_primer"], ["7", "NA", ""]]
    rfl
  exact ⟨h.1, h.2.1⟩

/-- C5: the loader's conditional expressions for `rmin` and `rmax` agree with
plain `min` and `max` on all integer pairs (equal values included), so a
reversed repeat-count pair yields the identical base name. -/
theorem rmin_rmax_eq_min_max (rep1 rep2 : Int) (m : String) :
    rminOf rep1 rep2 = min rep1 rep2 ∧ rmaxOf rep1 rep2 = max rep1 rep2
    ∧ mkBase ⟨m, rminOf rep1 rep2, rmaxOf rep1 rep2⟩
        = mkBase ⟨m, rminOf rep2 rep1, rmaxOf rep2 rep1⟩ := by
  have h1 : rminOf rep1 rep2 = min rep1 rep2 := (min_def rep1 rep2).symm
  have h2 : rmaxOf rep1 rep2 = max rep1 rep2 := by
    rw [rmaxOf, max_def]
  have h1' : rminOf rep2 rep1 = min rep2 rep1 := (min_def rep2 rep1).symm
  have h2' : rmaxOf rep2 rep1 = max rep2 rep1 := by
    rw [rmaxOf, max_def]
  refine ⟨h1, h2, ?_⟩
  rw [h1, h2, h1', h2', min_comm rep2 rep1, max_comm rep2 rep1]

/-- C10: the pad-then-truncate normalization leaves a row with at least
header-many fields untouched (longer rows are not truncated), and extends a
shorter row to exactly the header length with empty strings, never removing
an original field. -/
theorem normalize_row_spec (header row : List String) :
    (header.length ≤ row.length → normalizeRow header row = row)
    ∧ (row.length < header.length →
        normalizeRow header row = row ++ List.replicate (header.length - row.length) ""
        ∧ (normalizeRow header row).length = header.length) := by
  constructor
  · exact normalizeRow_of_ge header row
  · intro h
    refine ⟨normalizeRow_of_lt header row h, ?_⟩
    rw [normalizeRow_of_lt header row h, List.length_append, List.length_replicate]
    omega

/-- C10 witness: a long row passes through intact; a short row is padded to
the header length. -/
theorem normalize_row_spec_witness :
    normalizeRow ["a"] ["x", "y"] = ["x", "y"]
    ∧ normalizeRow ["a", "b", "c"] ["x"] = ["x", "", ""] :=
  ⟨(normalize_row_spec ["a"] ["x", "y"]).1 (by decide),
   ((normalize_row_spec ["a", "b", "c"] ["x"]).2 (by decide)).1⟩

/-- C2: for every base name other than the `"NA"` sentinel, the `i`-th locus
carrying that base name (in first-seen order, `0`-based) receives exactly the
canonical name with suffix `i + 1`: the suffixes are `1, 2, 3, …` with no
gaps and no repeats, and the first such locus gets `.1`, never a bare name. -/
theorem suffixes_ascending (comp : List (String × CompRec)) (header : List String)
    (idIdx : Nat) (data : List (List String)) (b : String) (hb : b ≠ "NA")
    (i : Nat)
    (hi : i < ((pass1 comp header idIdx data).loci.filter
        (fun l => baseOf (pass1 comp header idIdx data).base l == b)).length) :
    alookup (pass2 (pass1 comp header idIdx data).loci (pass1 comp header idIdx data).base)
        (((pass1 comp header idIdx data).loci.filter
          (fun l => baseOf (pass1 comp header idIdx data).base l == b)).getD i "")
      = some (mkName b (i + 1)) := by
  have hinv := pass1_inv comp header idIdx data
  have h := pass2Go_spec (pass1 comp header idIdx data).base
    (pass1 comp header idIdx data).loci hinv.1 ([], []) b hb i hi
  simpa [pass2, alookup] using h

/-- C2 witness: two loci (`5` and `8`) share base name `AC(4-7)`; the second
one, at filtered position `1`, receives suffix `2`. -/
theorem suffixes_ascending_witness :
    alookup
        (pass2 (pass1 [("5", ⟨"AC", 4, 7⟩), ("8", ⟨"AC", 4, 7⟩)]
            ["id", "forward_primer"] 0 [["5.1", "p"], ["5.2", "q"], ["8.1", "r"]]).loci
          (pass1 [("5", ⟨"AC", 4, 7⟩), ("8", ⟨"AC", 4, 7⟩)]
            ["id", "forward_primer"] 0 [["5.1", "p"], ["5.2", "q"], ["8.1", "r"]]).base)
        (((pass1 [("5", ⟨"AC", 4, 7⟩), ("8", ⟨"AC", 4, 7⟩)]
            ["id", "forward_primer"] 0 [["5.1", "p"], ["5.2", "q"], ["8.1", "r"]]).loci.filter
          (fun l => baseOf (pass1 [("5", ⟨"AC", 4, 7⟩), ("8", ⟨"AC", 4, 7⟩)]
            ["id", "forward_primer"] 0
            [["5.1", "p"], ["5.2", "q"], ["8.1", "r"]]).base l == "AC(4-7)")).getD 1 "")
      = some (mkName "AC(4-7)" 2) :=
  suffixes_ascending [("5", ⟨"AC", 4, 7⟩), ("8", ⟨"AC", 4, 7⟩)]
    ["id", "forward_primer"] 0 [["5.1", "p"], ["5.2", "q"], ["8.1", "r"]]
    "AC(4-7)" (by decide) 1 (by decide)

/-- The branch structure of `load_compare` as an if-chain. -/
theorem loadCompare_eq (fieldnames : List String)
    (rows : List (List (String × String))) :
    loadCompare fieldnames rows =
      if neededCols.filter (fun c => !(fieldnames.contains c)) ≠ [] then
        Except.error "[error] .compare missing columns"
      else if rows.foldl processCompRow [] = [] then
        Except.error "[error] No rows loaded from .compare"
      else Except.ok (rows.foldl processCompRow []) := rfl

theorem contains_iff_mem_str (l : List String) (a : String) :
    l.contains a = true ↔ a ∈ l :=
  ⟨fun h => List.mem_of_elem_eq_true h, fun h => List.elem_eq_true_of_mem h⟩

theorem missing_nil_iff (fieldnames : List String) :
    neededCols.filter (fun c => !(fieldnames.contains c)) = [] ↔
      ∀ c ∈ neededCols, c ∈ fieldnames := by
  rw [List.filter_eq_nil_iff]
  constructor
  · intro h c hc
    have h2 := h c hc
    simp only [Bool.not_eq_true', Bool.not_eq_false] at h2
    exact (contains_iff_mem_str fieldnames c).mp h2
  · intro h c hc
    simp only [Bool.not_eq_true', Bool.not_eq_false]
    exact (contains_iff_mem_str fieldnames c).mpr (h c hc)

/-- C6: `load_compare` aborts fatally (non-zero exit) if and only if a
required column is absent from the header or no usable record remains after
processing all rows; a row with a blank `number` or an unparseable
repeat-count field is silently skipped, leaving the index unchanged. -/
theorem load_compare_fatal_iff (fieldnames : List String)
    (rows : List (List (String × String))) :
    (isError (loadCompare fieldnames rows) = true ↔
      ((∃ c ∈ neededCols, c ∉ fieldnames) ∨ rows.foldl processCompRow [] = []))
    ∧ (∀ (comp : List (String × CompRec)) (row : List (String × String)),
        pyStrip ((getField row "number").getD "") = "" → processCompRow comp row = comp)
    ∧ (∀ (comp : List (String × CompRec)) (row : List (String × String)),
        (pyInt ((getField row "fasta1_repeat_number").getD "") = none ∨
         pyInt ((getField row "fasta2_repeat_number").getD "") = none) →
        processCompRow comp row = comp) := by
  refine ⟨?_, ?_, ?_⟩
  · rw [loadCompare_eq]
    by_cases hmiss : neededCols.filter (fun c => !(fieldnames.contains c)) = []
    · rw [if_neg (not_not_intro hmiss)]
      by_cases hfold : rows.foldl processCompRow [] = []
      · rw [if_pos hfold]
        exact ⟨fun _ => Or.inr hfold, fun _ => rfl⟩
      · rw [if_neg hfold]
        constructor
        · intro hfalse
          exact absurd hfalse (by simp [isError])
        · rintro (⟨c, hc, hnotin⟩ | h)
          · exact absurd ((missing_nil_iff fieldnames).mp hmiss c hc) hnotin
          · exact absurd h hfold
    · rw [if_pos hmiss]
      constructor
      · intro _
        left
        by_contra hno
        push_neg at hno
        exact hmiss ((missing_nil_iff fieldnames).mpr hno)
      · intro _
        rfl
  · intro comp row h
    simp only [processCompRow]
    rw [if_pos h]
  · intro comp row h
    by_cases hnum : pyStrip ((getField row "number").getD "") = ""
    · simp only [processCompRow]
      rw [if_pos hnum]
    · simp only [processCompRow]
      rw [if_neg hnum]
      rcases h with h | h
      · rw [h]
      · cases hp1 : pyInt ((getField row "fasta1_repeat_number").getD "") with
        | none => rfl
        | some r1 => rw [h]

/-- C6 witness: a header missing required columns is fatal; a blank `number`
and an unparseable repeat count are skipped without touching the index. -/
theorem load_compare_fatal_iff_witness :
    isError (loadCompare ["number"] []) = true
    ∧ processCompRow [] [("number", "  ")] = []
    ∧ processCompRow [] [("number", "7"), ("fasta1_repeat_number", "x")] = [] :=
  ⟨(load_compare_fatal_iff ["number"] []).1.mpr
      (Or.inl ⟨"fasta1_motif", by decide, by decide⟩),
   (load_compare_fatal_iff ["number"] []).2.1 [] [("number", "  ")] (by decide),
   (load_compare_fatal_iff ["number"] []).2.2 []
      [("number", "7"), ("fasta1_repeat_number", "x")] (Or.inl (by decide))⟩

theorem rminOf_le_rmaxOf (a b : Int) : rminOf a b ≤ rmaxOf a b := by
  unfold rminOf rmaxOf
  split <;> omega

theorem foldl_processCompRow_inv (rows : List (List (String × String))) :
    ∀ acc : List (String × CompRec),
      (∀ e ∈ acc, e.2.rmin ≤ e.2.rmax ∧ ∀ c ∈ e.2.motif.data, pyUpperChar c = c) →
      ∀ e ∈ rows.foldl processCompRow acc,
        e.2.rmin ≤ e.2.rmax ∧ ∀ c ∈ e.2.motif.data, pyUpperChar c = c := by
  induction rows with
  | nil => intro acc h; exact h
  | cons row rest ih =>
      intro acc h
      refine ih _ ?_
      intro e he
      by_cases hnum : pyStrip ((getField row "number").getD "") = ""
      · simp only [processCompRow, if_pos hnum] at he
        exact h e he
      · simp only [processCompRow, if_neg hnum] at he
        cases hp1 : pyInt ((getField row "fasta1_repeat_number").getD "") with
        | none =>
            rw [hp1] at he
            exact h e he
        | some r1 =>
            cases hp2 : pyInt ((getField row "fasta2_repeat_number").getD "") with
            | none =>
                rw [hp1, hp2] at he
                exact h e he
            | some r2 =>
                rw [hp1, hp2] at he
                rcases List.mem_cons.mp he with rfl | he'
                · refine ⟨rminOf_le_rmaxOf r1 r2, ?_⟩
                  intro c hc
                  by_cases hm1 : pyUpper (pyStrip ((getField row "fasta1_motif").getD "")) ≠ ""
                  · rw [if_pos hm1] at hc
                    exact mem_pyUpper_upperChar _ c hc
                  · rw [if_neg hm1] at hc
                    exact mem_pyUpper_upperChar _ c hc
                · exact h e he'

/-- C7 counterexample: the loader stores a record with an empty motif when
both motif fields are blank, and a record with negative repeat bounds when
the repeat counts are negative, refuting the claimed invariant. -/
theorem comp_record_invariant_counterexample :
    loadCompare neededCols
        [[("number", "7"), ("fasta1_motif", ""), ("fasta2_motif", ""),
          ("fasta1_repeat_number", "4"), ("fasta2_repeat_number", "6")],
         [("number", "8"), ("fasta1_motif", "ac"), ("fasta2_motif", "gt"),
          ("fasta1_repeat_number", "-3"), ("fasta2_repeat_number", "-3")]]
      = Except.ok [("8", ⟨"AC", -3, -3⟩), ("7", ⟨"", 4, 6⟩)]
    ∧ (CompRec.mk "" 4 6).motif = ""
    ∧ (CompRec.mk "AC" (-3) (-3)).rmin < 0 := by
  refine ⟨rfl, rfl, by decide⟩

/-- C7 amended: every comparison record stored in the loaded index satisfies
`repeat_min ≤ repeat_max`, and its motif contains no lowercase character
(it is an upper-cased field); but the motif may be empty (both source motif
fields blank) and the bounds may be negative (negative source counts). -/
theorem comp_record_invariant_amended (fieldnames : List String)
    (rows : List (List (String × String))) (comp : List (String × CompRec))
    (h : loadCompare fieldnames rows = Except.ok comp)
    (e : String × CompRec) (he : e ∈ comp) :
    e.2.rmin ≤ e.2.rmax ∧ ∀ c ∈ e.2.motif.data, pyUpperChar c = c := by
  have hcomp : comp = rows.foldl processCompRow [] := by
    rw [loadCompare_eq] at h
    split at h
    · exact absurd h (by simp)
    · split at h
      · exact absurd h (by simp)
      · injection h with h'
        exact h'.symm
  subst hcomp
  exact foldl_processCompRow_inv rows [] (by simp) e he

/-- C7 amended witness: a well-formed record in a loaded index satisfies the
amended invariant. -/
theorem comp_record_invariant_amended_witness :
    (CompRec.mk "AC" 4 6).rmin ≤ (CompRec.mk "AC" 4 6).rmax
    ∧ ∀ c ∈ (CompRec.mk "AC" 4 6).motif.data, pyUpperChar c = c :=
  comp_record_invariant_amended neededCols
    [[("number", "7"), ("fasta1_motif", "ac"), ("fasta2_motif", ""),
      ("fasta1_repeat_number", "6"), ("fasta2_repeat_number", "4")]]
    [("7", ⟨"AC", 4, 6⟩)] rfl ("7", ⟨"AC", 4, 6⟩) (List.mem_singleton.mpr rfl)

theorem mem_getD_str {l : List String} {a : String} (h : a ∈ l) :
    ∃ i, ∃ hi : i < l.length, l.getD i "" = a := by
  induction l with
  | nil => simp at h
  | cons x t ih =>
      rcases List.mem_cons.mp h with rfl | h'
      · exact ⟨0, by simp, rfl⟩
      · obtain ⟨i, hi, hget⟩ := ih h'
        exact ⟨i + 1, by simpa using hi, by simpa using hget⟩

/-- C8 counterexample: two distinct loci (`1` and `2`), both absent from the
comparison index, receive the identical canonical name `"NA"`, so canonical
names are not globally unique per locus. -/
theorem canonical_name_unique_counterexample :
    addMsatMain [("9", ⟨"AC", 4, 7⟩)]
        [["id", "forward_primer"], ["1.1", "x"], ["2.1", "y"]]
      = Except.ok [["id", "microsatellite_name", "forward_primer"],
          ["1.1", "NA", "x"], ["2.1", "NA", "y"]]
    ∧ keyOfRow ["id", "forward_primer"] 0 ["1.1", "x"]
        ≠ keyOfRow ["id", "forward_primer"] 0 ["2.1", "y"]
    ∧ (([["id", "microsatellite_name", "forward_primer"],
          ["1.1", "NA", "x"], ["2.1", "NA", "y"]] : List (List String)).getD 1 []).getD 1 ""
      = (([["id", "microsatellite_name", "forward_primer"],
          ["1.1", "NA", "x"], ["2.1", "NA", "y"]] : List (List String)).getD 2 []).getD 1 "" := by
  refine ⟨rfl, by decide, rfl⟩

/-- C8 amended: canonical names other than the `"NA"` sentinel are globally
unique per locus: two distinct locus keys whose assigned names are both
different from `"NA"` receive different names. -/
theorem canonical_name_unique_amended (comp : List (String × CompRec))
    (header : List String) (idIdx : Nat) (data : List (List String))
    (k1 k2 n1 n2 : String) (hk : k1 ≠ k2)
    (h1 : alookup (pass2 (pass1 comp header idIdx data).loci
        (pass1 comp header idIdx data).base) k1 = some n1)
    (h2 : alookup (pass2 (pass1 comp header idIdx data).loci
        (pass1 comp header idIdx data).base) k2 = some n2)
    (hn1 : n1 ≠ "NA") (hn2 : n2 ≠ "NA") : n1 ≠ n2 := by
  have hinv := pass1_inv comp header idIdx data
  have hmem1 : k1 ∈ (pass1 comp header idIdx data).loci :=
    pass2_lookup_some_mem _ _ _ _ h1
  have hmem2 : k2 ∈ (pass1 comp header idIdx data).loci :=
    pass2_lookup_some_mem _ _ _ _ h2
  have hb1 : baseOf (pass1 comp header idIdx data).base k1 ≠ "NA" := by
    intro hNA
    have hna := pass2Go_lookup_na (pass1 comp header idIdx data).base
      (pass1 comp header idIdx data).loci hinv.1 ([], []) k1 hmem1 hNA
    rw [pass2] at h1
    rw [h1] at hna
    exact hn1 (Option.some.inj hna)
  have hb2 : baseOf (pass1 comp header idIdx data).base k2 ≠ "NA" := by
    intro hNA
    have hna := pass2Go_lookup_na (pass1 comp header idIdx data).base
      (pass1 comp header idIdx data).loci hinv.1 ([], []) k2 hmem2 hNA
    rw [pass2] at h2
    rw [h2] at hna
    exact hn2 (Option.some.inj hna)
  have hf1 : k1 ∈ (pass1 comp header idIdx data).loci.filter
      (fun l => baseOf (pass1 comp header idIdx data).base l
        == baseOf (pass1 comp header idIdx data).base k1) :=
    List.mem_filter.mpr ⟨hmem1, by simp⟩
  have hf2 : k2 ∈ (pass1 comp header idIdx data).loci.filter
      (fun l => baseOf (pass1 comp header idIdx data).base l
        == baseOf (pass1 comp header idIdx data).base k2) :=
    List.mem_filter.mpr ⟨hmem2, by simp⟩
  obtain ⟨i1, hi1, hget1⟩ := mem_getD_str hf1
  obtain ⟨i2, hi2, hget2⟩ := mem_getD_str hf2
  have hv1 := pass2Go_spec (pass1 comp header idIdx data).base
    (pass1 comp header idIdx data).loci hinv.1 ([], [])
    (baseOf (pass1 comp header idIdx data).base k1) hb1 i1 hi1
  have hv2 := pass2Go_spec (pass1 comp header idIdx data).base
    (pass1 comp header idIdx data).loci hinv.1 ([], [])
    (baseOf (pass1 comp header idIdx data).base k2) hb2 i2 hi2
  rw [hget1] at hv1
  rw [hget2] at hv2
  rw [pass2] at h1 h2
  rw [h1] at hv1
  rw [h2] at hv2
  have hn1eq : n1 = mkName (baseOf (pass1 comp header idIdx data).base k1) (i1 + 1) := by
    have := Option.some.inj hv1
    simpa [alookup] using this
  have hn2eq : n2 = mkName (baseOf (pass1 comp header idIdx data).base k2) (i2 + 1) := by
    have := Option.some.inj hv2
    simpa [alookup] using this
  intro heq
  rw [hn1eq, hn2eq] at heq
  obtain ⟨hbase, hsuf⟩ := mkName_inj heq
  have hi12 : i1 = i2 := by omega
  apply hk
  rw [← hget1, ← hget2, ← hbase, hi12]

/-- C8 amended witness: two matched loci with distinct base names receive
distinct non-`"NA"` canonical names. -/
theorem canonical_name_unique_amended_witness :
    (mkName "AC(4-7)" 1 : String) ≠ mkName "AG(3-9)" 1 :=
  canonical_name_unique_amended [("1", ⟨"AC", 4, 7⟩), ("2", ⟨"AG", 3, 9⟩)]
    ["id", "forward_primer"] 0 [["1.1", "x"], ["2.1", "y"]]
    "1" "2" (mkName "AC(4-7)" 1) (mkName "AG(3-9)" 1)
    (by decide) (by decide) (by decide) (by decide) (by decide)

/-- The keep-predicate exactly as claim C9 words it, for comparison with the
code's `keepRow` (refinement target following the claim, not the source): the
raw field values are tested, with case-insensitivity as the only
normalization — no whitespace trimming. -/
def keepRowClaim (args : FilterArgs) (row : List (String × String)) : Bool :=
  let poly := (getField row "polymorphism").getD ""
  let m1 := (getField row "fasta1_motif").getD ""
  let m2 := (getField row "fasta2_motif").getD ""
  (pyLower poly == "yes")
  && !(m1 == "") && !(m2 == "")
  && (pyUpper m1 == pyUpper m2)
  && isValidDna m1
  && args.allowedLengths.contains m1.length
  && (match pyInt ((getField row "fasta1_repeat_number").getD ""),
        pyInt ((getField row "fasta2_repeat_number").getD "") with
      | some r1, some r2 =>
          decide (args.minRepeats ≤ r1) && decide (args.minRepeats ≤ r2)
      | _, _ => false)
  && (args.keepAtOnly || !(isAtOnly m1))

/-- C9 counterexample: a row whose motif fields carry surrounding whitespace
(`" AC "`) is kept by the code (which trims before testing) but rejected by
the claim's literal predicate (a space is not one of the bases A/C/G/T). -/
theorem keep_row_counterexample :
    keepRow defaultFilterArgs
        [("polymorphism", "yes"), ("fasta1_motif", " AC "), ("fasta2_motif", " AC "),
         ("fasta1_repeat_number", "5"), ("fasta2_repeat_number", "5")] = true
    ∧ keepRowClaim defaultFilterArgs
        [("polymorphism", "yes"), ("fasta1_motif", " AC "), ("fasta2_motif", " AC "),
         ("fasta1_repeat_number", "5"), ("fasta2_repeat_number", "5")] = false :=
  ⟨rfl, rfl⟩

/-- The claim's predicate amended with the code's whitespace normalization:
every tested field is first stripped of surrounding whitespace. -/
def keepRowAmended (args : FilterArgs) (row : List (String × String)) : Bool :=
  let poly := pyStrip ((getField row "polymorphism").getD "")
  let m1 := pyStrip ((getField row "fasta1_motif").getD "")
  let m2 := pyStrip ((getField row "fasta2_motif").getD "")
  (pyLower poly == "yes")
  && !(m1 == "") && !(m2 == "")
  && (pyUpper m1 == pyUpper m2)
  && isValidDna m1
  && args.allowedLengths.contains m1.length
  && (match pyInt ((getField row "fasta1_repeat_number").getD ""),
        pyInt ((getField row "fasta2_repeat_number").getD "") with
      | some r1, some r2 =>
          decide (args.minRepeats ≤ r1) && decide (args.minRepeats ≤ r2)
      | _, _ => false)
  && (args.keepAtOnly || !(isAtOnly m1))

theorem isValidDna_pyUpper (s : String) : isValidDna (pyUpper s) = isValidDna s := by
  simp only [isValidDna, pyUpper_idem]

theorem isAtOnly_pyUpper (s : String) : isAtOnly (pyUpper s) = isAtOnly s := by
  simp only [isAtOnly, pyUpper_idem]

/-- C9 amended: the code's keep-condition coincides, for every configuration
and every row, with the claim's list of conditions applied to the
whitespace-trimmed field values. -/
theorem contains_iff_mem_nat (l : List Nat) (a : Nat) :
    l.contains a = true ↔ a ∈ l :=
  ⟨fun h => List.mem_of_elem_eq_true h, fun h => List.elem_eq_true_of_mem h⟩

theorem keep_row_amended_eq (args : FilterArgs) (row : List (String × String)) :
    keepRow args row = keepRowAmended args row := by
  cases hp1 : pyInt ((getField row "fasta1_repeat_number").getD "") with
  | none => simp [keepRow, keepRowAmended, hp1]
  | some r1 =>
      cases hp2 : pyInt ((getField row "fasta2_repeat_number").getD "") with
      | none => simp [keepRow, keepRowAmended, hp1, hp2]
      | some r2 =>
          by_cases h1 : pyLower (pyStrip ((getField row "polymorphism").getD "")) = "yes"
          case neg => simp [keepRow, keepRowAmended, hp1, hp2, h1]
          case pos =>
          by_cases h2 : pyStrip ((getField row "fasta1_motif").getD "") = ""
          case pos =>
            simp [keepRow, keepRowAmended, hp1, hp2, h1, h2, pyUpper_eq_empty_iff]
          case neg =>
          by_cases h3 : pyStrip ((getField row "fasta2_motif").getD "") = ""
          case pos =>
            simp [keepRow, keepRowAmended, hp1, hp2, h1, h2, h3, pyUpper_eq_empty_iff]
          case neg =>
          by_cases h4 : pyUpper (pyStrip ((getField row "fasta1_motif").getD ""))
              = pyUpper (pyStrip ((getField row "fasta2_motif").getD ""))
          case neg =>
            simp [keepRow, keepRowAmended, hp1, hp2, h1, h2, h3, h4,
              pyUpper_eq_empty_iff]
          case pos =>
          have hvd2 : isValidDna (pyStrip ((getField row "fasta2_motif").getD ""))
              = isValidDna (pyStrip ((getField row "fasta1_motif").getD "")) := by
            rw [← isValidDna_pyUpper, ← h4, isValidDna_pyUpper]
          have hat2 : isAtOnly (pyStrip ((getField row "fasta2_motif").getD ""))
              = isAtOnly (pyStrip ((getField row "fasta1_motif").getD "")) := by
            rw [← isAtOnly_pyUpper, ← h4, isAtOnly_pyUpper]
          have hlen2 : (pyStrip ((getField row "fasta2_motif").getD "")).length
              = (pyStrip ((getField row "fasta1_motif").getD "")).length := by
            rw [← pyUpper_length, ← h4, pyUpper_length]
          cases h5 : isValidDna (pyStrip ((getField row "fasta1_motif").getD "")) with
          | false =>
              simp [keepRow, keepRowAmended, hp1, hp2, h1, h2, h3, h4, h5, hvd2,
                hat2, hlen2, pyUpper_eq_empty_iff, isValidDna_pyUpper]
          | true =>
          cases h6 : args.allowedLengths.contains
              (pyStrip ((getField row "fasta1_motif").getD "")).length with
          | false =>
              have h6m : (pyStrip ((getField row "fasta1_motif").getD "")).length
                  ∉ args.allowedLengths := by
                intro hm
                exact absurd (((contains_iff_mem_nat _ _).mpr hm).symm.trans h6) (by simp)
              simp [keepRow, keepRowAmended, hp1, hp2, h1, h2, h3, h4, h5, h6, h6m,
                hvd2, hat2, hlen2, pyUpper_eq_empty_iff, isValidDna_pyUpper,
                pyUpper_length]
          | true =>
          have h6m : (pyStrip ((getField row "fasta1_motif").getD "")).length
              ∈ args.allowedLengths := (contains_iff_mem_nat _ _).mp h6
          by_cases h7 : r1 < args.minRepeats
          case pos =>
            simp [keepRow, keepRowAmended, hp1, hp2, h1, h2, h3, h4, h5, h6, h6m, h7,
              not_le.mpr h7, hvd2, hat2, hlen2, pyUpper_eq_empty_iff,
              isValidDna_pyUpper, pyUpper_length]
          case neg =>
          by_cases h8 : r2 < args.minRepeats
          case pos =>
            simp [keepRow, keepRowAmended, hp1, hp2, h1, h2, h3, h4, h5, h6, h6m, h7,
              h8, not_lt.mp h7, not_le.mpr h8, hvd2, hat2, hlen2, pyUpper_eq_empty_iff,
              isValidDna_pyUpper, pyUpper_length]
          case neg =>
          cases h9 : args.keepAtOnly with
          | true =>
              simp [keepRow, keepRowAmended, hp1, hp2, h1, h2, h3, h4, h5, h6, h6m,
                h7, h8, h9, not_lt.mp h7, not_lt.mp h8, hvd2, hat2, hlen2,
                pyUpper_eq_empty_iff, isValidDna_pyUpper, pyUpper_length]
          | false =>
          cases h10 : isAtOnly (pyStrip ((getField row "fasta1_motif").getD "")) with
          | true =>
              simp [keepRow, keepRowAmended, hp1, hp2, h1, h2, h3, h4, h5, h6, h6m,
                h7, h8, h9, h10, not_lt.mp h7, not_lt.mp h8, hvd2, hat2, hlen2,
                pyUpper_eq_empty_iff, isValidDna_pyUpper, isAtOnly_pyUpper,
                pyUpper_length]
          | false =>
              simp [keepRow, keepRowAmended, hp1, hp2, h1, h2, h3, h4, h5, h6, h6m,
                h7, h8, h9, h10, not_lt.mp h7, not_lt.mp h8, hvd2, hat2, hlen2,
                pyUpper_eq_empty_iff, isValidDna_pyUpper, isAtOnly_pyUpper,
                pyUpper_length]

end MsatFilter
